import Mathlib

/-!
Shallow embedding of the DICOM anonymization / repair / batch-orchestration
core of the repository (src/src/dicom_processing/dicom_anonimizer.py,
src/src/dicom_processing/dicom_repaire.py, src/src/dicom_processing/utils_config.py).

Strings are modelled as lists of characters (`Str`), so that every string
operation the Python code performs (`str.lower`, `str.split`, `str.startswith`,
substring tests via `in`, `int(...)`, regex searches) is an executable,
structurally recursive Lean function whose behaviour on every input used by
the program matches CPython's. Records ("DICOM datasets") are modelled as
attribute tables: association lists from attribute name to value.
-/

/-- Python strings, modelled as their list of characters (code points). -/
abbrev Str := List Char

/-- Coerce a Lean string literal to the `Str` model. -/
def str (s : String) : Str := s.data

/-- Python `needle in haystack` (substring containment) for strings. -/
def containsSub (needle : Str) : Str → Bool
  | [] => needle.isEmpty
  | c :: rest => needle.isPrefixOf (c :: rest) || containsSub needle rest

/-- Python `s.startswith(p)`. -/
def startsWith (p s : Str) : Bool := p.isPrefixOf s

/-- Python `s.endswith(p)`. -/
def endsWith (p s : Str) : Bool := p.isSuffixOf s

/-- Python `str.lower`, for the character ranges that occur in this program:
ASCII letters and the Cyrillic letters А-Я / Ё used in patient folder names. -/
def pyLowerChar (c : Char) : Char :=
  if 'A' ≤ c ∧ c ≤ 'Z' then Char.ofNat (c.toNat + 32)
  else if 'А' ≤ c ∧ c ≤ 'Я' then Char.ofNat (c.toNat + 32)
  else if c = 'Ё' then 'ё'
  else c

def pyLower (s : Str) : Str := s.map pyLowerChar

/-- Python `s.split('_')` (single-character separator, keeps empty parts). -/
def splitU : Str → List Str
  | [] => [[]]
  | c :: rest =>
    if c = '_' then [] :: splitU rest
    else
      match splitU rest with
      | [] => [[c]]
      | h :: t => (c :: h) :: t

/-- Python `s.split('__')` (two-character separator, non-overlapping,
left to right, keeps empty parts). -/
def splitUU : Str → List Str
  | [] => [[]]
  | [c] => [[c]]
  | c1 :: c2 :: rest =>
    if c1 = '_' ∧ c2 = '_' then [] :: splitUU rest
    else
      match splitUU (c2 :: rest) with
      | [] => [[c1]]
      | h :: t => (c1 :: h) :: t

/-- Value of a nonempty all-digit string, `none` otherwise. -/
def digitsVal? (s : Str) : Option Nat :=
  if s ≠ [] ∧ s.all Char.isDigit then
    some (s.foldl (fun a c => a * 10 + (c.toNat - 48)) 0)
  else none

/-- Python `int(s)` on the strings this program feeds it (an optional sign
followed by decimal digits; `none` models `ValueError`). -/
def pyInt? : Str → Option Int
  | '-' :: rest => (digitsVal? rest).map (fun n => -(n : Int))
  | '+' :: rest => (digitsVal? rest).map (fun n => (n : Int))
  | s => (digitsVal? s).map (fun n => (n : Int))

/-- The decimal digit characters, as produced by Python `str(n)` (only ever
applied to `d < 10`). -/
def digitChar (d : Nat) : Char :=
  if d = 0 then '0' else if d = 1 then '1' else if d = 2 then '2' else if d = 3 then '3'
  else if d = 4 then '4' else if d = 5 then '5' else if d = 6 then '6' else if d = 7 then '7'
  else if d = 8 then '8' else '9'

/-- Decimal digit expansion of `n > 0` (most significant first); the fuel is
always sufficient when it is at least `n`. -/
def natToStrGo : Nat → Nat → Str
  | 0, _ => []
  | fuel + 1, n => if n = 0 then [] else natToStrGo fuel (n / 10) ++ [digitChar (n % 10)]

/-- Python `str(n)` for a natural number. -/
def natToStr (n : Nat) : Str :=
  if n = 0 then ['0'] else natToStrGo n n

/-- Python `str(i)` for an integer. -/
def intToStr (i : Int) : Str :=
  if i < 0 then '-' :: natToStr i.natAbs else natToStr i.toNat

section ConfigAndClassifier

/-- `PATTERNS_FOR_DICOM_ANONIMIZER` from utils_config.py: the identifying
tokens matched as substrings of the lower-cased attribute name. -/
def PATTERNS_FOR_DICOM_ANONYMIZER : List Str :=
  [str "acquisition", str "bits", str "date", str "time",
   str "manufacturer", str "patient", str "name", str "study"]

/-- `CRITICAL_PATTERNS` from utils_config.py: two-token patterns whose joint
match marks an attribute as preserved. -/
def CRITICAL_PATTERNS : List (Str × Str) :=
  [(str "bits", str "allocated"), (str "bits", str "stored"),
   (str "bits", str "high"), (str "pixel", str "representation"),
   (str "pixel", str "spacing"), (str "patient", str "orientation"),
   (str "patient", str "position"), (str "image", str "orientation"),
   (str "image", str "position"), (str "slice", str "thickness"),
   (str "slice", str "between"), (str "slice", str "spacing")]

/-- `Anonymizer.is_critical_patterns`: the (already lower-cased) attribute
name contains both tokens of some critical pattern pair. -/
def is_critical_patterns (attr_name : Str) : Bool :=
  CRITICAL_PATTERNS.any (fun kv => containsSub kv.1 attr_name && containsSub kv.2 attr_name)

/-- A DICOM attribute value: free text / UID strings, numeric multi-values,
or a single number.  Numbers are represented exactly as rationals (the code
only assigns and compares them, it never computes with them). -/
inductive DVal where
  | str : Str → DVal
  | numList : List ℚ → DVal
  | num : ℚ → DVal
deriving DecidableEq

/-- A record's attribute table. -/
abbrev Dicom := List (Str × DVal)

/-- One iteration of the `anonymize_dicom` loop body for one attribute,
including the `attrs` list-comprehension filter (an attribute whose name
matches no identifying token is never selected and stays untouched). -/
def anonStep (uid pid : Str) (nv : Str × DVal) : Str × DVal :=
  let ln := pyLower nv.1
  if PATTERNS_FOR_DICOM_ANONYMIZER.any (fun p => containsSub p ln) then
    if containsSub (str "study") ln && containsSub (str "uid") ln then
      (nv.1, DVal.str uid)
    else if containsSub (str "patient") ln && containsSub (str "id") ln then
      (nv.1, DVal.str pid)
    else if is_critical_patterns ln then nv
    else (nv.1, DVal.str [])
  else nv

/-- `Anonymizer.anonymize_dicom`: rewrite every attribute of the record
according to the classification rules. -/
def anonymize_dicom (d : Dicom) (uid pid : Str) : Dicom :=
  d.map (anonStep uid pid)

end ConfigAndClassifier

section GeometryRepair

/-- Python `getattr(ds, n)` on the attribute table (`none` models the
attribute being absent, i.e. `hasattr` returning `False`). -/
def getAttr? (d : Dicom) (n : Str) : Option DVal :=
  (d.find? (fun p => p.1 = n)).map (·.2)

/-- Python `hasattr(ds, n)`. -/
def hasAttr (d : Dicom) (n : Str) : Bool :=
  d.any (fun p => p.1 = n)

/-- Python `setattr(ds, n, v)`: replace the attribute's value if present,
append it otherwise. -/
def setAttr (d : Dicom) (n : Str) (v : DVal) : Dicom :=
  match d with
  | [] => [(n, v)]
  | p :: rest => if p.1 = n then (n, v) :: rest else p :: setAttr rest n v

/-- Python truthiness of a DICOM attribute value (`not value`): empty
strings, empty multi-values and the number zero are falsy. -/
def dvFalsy : DVal → Bool
  | DVal.str s => s.isEmpty
  | DVal.numList l => l.isEmpty
  | DVal.num q => q = 0

/-- `getattr(ds, n, default)`. -/
def getAttrD (d : Dicom) (n : Str) (v : DVal) : DVal :=
  (getAttr? d n).getD v

def nIOP : Str := str "ImageOrientationPatient"
def nPS : Str := str "PixelSpacing"
def nSBS : Str := str "SpacingBetweenSlices"
def nST : Str := str "SliceThickness"

/-- `0.4`, written in lowest terms so that the kernel can evaluate equality
of values without rational-arithmetic normalization. -/
def q4am : ℚ := ⟨2, 5, by decide, by decide⟩
/-- `0.32` in lowest terms. -/
def q32am : ℚ := ⟨8, 25, by decide, by decide⟩
/-- `0.3` in lowest terms. -/
def q3am : ℚ := ⟨3, 10, by decide, by decide⟩

/-- The identity-orientation default `[1.0, 0.0, 0.0, 0.0, 1.0, 0.0]`. -/
def defaultIOP : DVal := DVal.numList [1, 0, 0, 0, 1, 0]
/-- The pixel-spacing default `[0.4, 0.4]`. -/
def defaultPS : DVal := DVal.numList [q4am, q4am]
/-- The slice-spacing fallback default `0.32`. -/
def defaultSBS : DVal := DVal.num q32am

/-- `DicomRepairProcessor.fix_dicom_geometry` (dicom_repaire.py): patch the
three geometric attributes, returning the patched record and the single
`changed` flag. -/
def fix_dicom_geometry (d : Dicom) : Dicom × Bool :=
  let iopBad := !hasAttr d nIOP || dvFalsy (getAttrD d nIOP (DVal.str []))
  let d1 := if iopBad then setAttr d nIOP defaultIOP else d
  let psBad := !hasAttr d1 nPS || (getAttrD d1 nPS (DVal.str []) = DVal.numList [0, 0])
  let d2 := if psBad then setAttr d1 nPS defaultPS else d1
  let sbsBad := !hasAttr d2 nSBS
  let d3 := if sbsBad then setAttr d2 nSBS (getAttrD d2 nST defaultSBS) else d2
  (d3, iopBad || psBad || sbsBad)

/-- `Anonymizer.repair_dicom` (dicom_anonimizer.py): same three patch rules,
reporting the three per-attribute patch flags that the method logs. -/
def repair_dicom (d : Dicom) : Dicom × (Bool × Bool × Bool) :=
  let image_orientation := !hasAttr d nIOP || dvFalsy (getAttrD d nIOP (DVal.str []))
  let d1 := if image_orientation then setAttr d nIOP defaultIOP else d
  let pixel_spacing := !hasAttr d1 nPS || (getAttrD d1 nPS (DVal.str []) = DVal.numList [0, 0])
  let d2 := if pixel_spacing then setAttr d1 nPS defaultPS else d1
  let spacing_between_slices := !hasAttr d2 nSBS
  let d3 := if spacing_between_slices then setAttr d2 nSBS (getAttrD d2 nST defaultSBS) else d2
  (d3, image_orientation, pixel_spacing, spacing_between_slices)

end GeometryRepair

section NameHeuristic

/-- Python `\w` (word character) over the alphabets occurring in this
program's folder names: ASCII alphanumerics, underscore, Cyrillic letters. -/
def isWordChar (c : Char) : Bool :=
  c.isAlphanum || c = '_' ||
    ('А' ≤ c && c ≤ 'я') || c = 'ё' || c = 'Ё'

/-- `re.search(r'(\d{2})', n)`: the first two adjacent digits, if any. -/
def firstTwoDigits : Str → Option Str
  | c1 :: c2 :: rest =>
    if c1.isDigit && c2.isDigit then some [c1, c2]
    else firstTwoDigits (c2 :: rest)
  | _ => none

/-- `re.search(r'\b(t₁|t₂)\b', n)`: some target character occurs with no
word character on either side. -/
def hasTokenStandalone (targets : List Char) : Bool → Str → Bool
  | _, [] => false
  | prevWord, c :: rest =>
    (targets.contains c && !prevWord &&
      !(match rest with | [] => false | d :: _ => isWordChar d)) ||
    hasTokenStandalone targets (isWordChar c) rest

/-- `re.search(r'(t₁|t₂)(?=\d|[,;])', n)`: some target character is
immediately followed by a digit, comma or semicolon. -/
def hasTokenBeforeDigit (targets : List Char) : Str → Bool
  | c :: d :: rest =>
    (targets.contains c && (d.isDigit || d = ',' || d = ';')) ||
    hasTokenBeforeDigit targets (d :: rest)
  | _ => false

/-- `Anonymizer.guess_sex_and_age_from_name`. -/
def guess_sex_and_age_from_name (name : Str) : Str × Str :=
  let n := pyLower name
  let age := match firstTwoDigits n with
    | some d2 => d2
    | none => str "NO_AGE"
  let sex :=
    if hasTokenStandalone ['ж', 'f'] false n || hasTokenBeforeDigit ['ж', 'f'] n then str "F"
    else if hasTokenStandalone ['м', 'm'] false n || hasTokenBeforeDigit ['м', 'm'] n then str "M"
    else str "NO_SEX"
  (sex, age)

end NameHeuristic

section FolderClassifier

/-- A patient folder as the classifier sees it: its directory name and the
result of `get_sex_and_age_from_dicom` on its contents (`none` models a
folder in which no record could be read at all, in which case that method
falls off its loop and returns Python `None`). -/
structure Folder where
  name : Str
  dicomSexAge : Option (Str × Str)
deriving DecidableEq

/-- Parse the canonical index of a folder name the way
`anonimize_folders` does: `int(f.split('__')[1].split('_')[0])`, with any
`IndexError`/`ValueError` giving `none` (the bare `except: continue`). -/
def parseIdx (f : Str) : Option Int :=
  ((splitUU f).get? 1).bind (fun s => ((splitU s).get? 0).bind pyInt?)

/-- Python `max` of a nonempty list of ints (`0` is never used: the code
guards emptiness separately). -/
def listMax : List Int → Int
  | [] => 0
  | h :: t => t.foldl max h

/-- The `while next_index in used_indexes: next_index += 1` loop.  The fuel
`used.length + 1` always suffices: among `n, n+1, …, n + |used|` at least one
value is missing from `used`. -/
def skipUsed : Nat → List Int → Int → Int
  | 0, _, n => n
  | fuel + 1, used, n => if n ∈ used then skipUsed fuel used (n + 1) else n

/-- Lines 219–229 of dicom_anonimizer.py: combine the record-derived sex/age
with the folder-name heuristic and apply the `NO_SEX`/`NO_AGE` defaults. -/
def resolve_sex_age (info : Str × Str) (rawName : Str) : Str × Str :=
  let sex0 := info.1
  let age0 := info.2
  let sa :=
    if sex0.isEmpty || sex0 = str "NO_SEX" then
      let g := guess_sex_and_age_from_name rawName
      (if sex0 = str "NO_SEX" ∧ g.1 ≠ str "NO_SEX" then g.1 else sex0,
       if age0 = str "NO_AGE" ∧ g.2 ≠ str "NO_AGE" then g.2 else age0)
    else (sex0, age0)
  (if sa.1.isEmpty then str "NO_SEX" else sa.1,
   if sa.2.isEmpty then str "NO_AGE" else sa.2)

/-- `f"patient__{next_index}_{sex}_{age}"`. -/
def canonName (i : Int) (sex age : Str) : Str :=
  str "patient__" ++ intToStr i ++ '_' :: (sex ++ '_' :: age)

/-- The renaming loop of `anonimize_folders` over the non-canonical folders,
threading `used_indexes` and `next_index`; produces the old-name → new-name
renames.  `none` models the uncaught `TypeError` raised when
`get_sex_and_age_from_dicom` returns `None`. -/
def classifyLoop (used : List Int) (next : Int) : List Folder → Option (List (Str × Str))
  | [] => some []
  | f :: rest =>
    match f.dicomSexAge with
    | none => none
    | some info =>
      let sa := resolve_sex_age info f.name
      let idx := skipUsed (used.length + 1) used next
      let nm := canonName idx sa.1 sa.2
      (classifyLoop (idx :: used) (idx + 1) rest).map (fun rs => (f.name, nm) :: rs)

/-- `Anonymizer.anonimize_folders`: split the working directory into
canonical and raw folders, compute the used indices and the next index, and
rename every raw folder; returns the resulting directory listing and the
performed renames (filesystem moves are taken to succeed). -/
def anonimize_folders (folders : List Folder) : Option (List Str × List (Str × Str)) :=
  let names := folders.map (·.name)
  let existing := names.filter (startsWith (str "patient__"))
  let nonAnon := folders.filter (fun f => !(startsWith (str "patient__") f.name))
  let used := existing.filterMap parseIdx
  let next := if used.isEmpty then 1 else listMax used + 1
  (classifyLoop used next nonAnon).map (fun rs => (existing ++ rs.map (·.2), rs))

end FolderClassifier

section BatchOrchestrator

/-- Python string `<` (lexicographic by code point), as used by `sorted`. -/
def lexLt : Str → Str → Bool
  | [], [] => false
  | [], _ :: _ => true
  | _ :: _, [] => false
  | a :: s, b :: t => if a < b then true else if a = b then lexLt s t else false

def insertSorted (x : Str) : List Str → List Str
  | [] => [x]
  | y :: ys => if lexLt x y then x :: y :: ys else y :: insertSorted x ys

/-- Python `sorted` on a list of strings. -/
def sortStr (l : List Str) : List Str := l.foldr insertSorted []

/-- `sorted([f for f in os.listdir(...) if f.startswith("patient__")])`. -/
def sortedCanon (names : List Str) : List Str :=
  sortStr (names.filter (startsWith (str "patient__")))

/-- Lines 148–149 of dicom_anonimizer.py: the folders an
`anonimize_all_patients(start_index)` call actually processes —
`patient_folders[start_index - 1:]`, a positional slice of the sorted list
(`start_index ≥ 1` in every call the program makes). -/
def to_process (names : List Str) (start : Nat) : List Str :=
  (sortedCanon names).drop (start - 1)

/-- One record as `anonimize_patient` meets it: `none` models a file on
which `dcmread`/`save_as` faults (the record is left as it was on disk). -/
abbrev RecFile := Option Dicom

/-- Lines 185–188: read, repair, anonymize, save one record. -/
def processRecord (uid pid : Str) (d : Dicom) : Dicom :=
  anonymize_dicom (repair_dicom d).1 uid pid

/-- `Anonymizer.anonimize_patient`: walk the folder's records in order; a
faulting record returns `False` immediately, leaving it and every later
record untouched; earlier records have already been saved.  Returns the
resulting on-disk records and the success flag. -/
def anonimize_patient (uid pid : Str) : List RecFile → List RecFile × Bool
  | [] => ([], true)
  | none :: rest => (none :: rest, false)
  | some d :: rest =>
    let r := anonimize_patient uid pid rest
    (some (processRecord uid pid d) :: r.1, r.2)

/-- The fan-out of `task_wrapper` over the selected folders (one generated
identity per folder task; folder tasks are independent, so the batch is
modelled folder by folder). -/
def run_folders (uidOf pidOf : Str → Str) (sel : List (Str × List RecFile)) :
    List (Str × List RecFile × Bool) :=
  sel.map (fun fr => (fr.1, anonimize_patient (uidOf fr.1) (pidOf fr.1) fr.2))

/-- The `self.successes` aggregate after all tasks complete (membership is
deterministic even though the threads' append order is not). -/
def successes (out : List (Str × List RecFile × Bool)) : List Str :=
  (out.filter (fun t => t.2.2)).map (·.1)

/-- The `self.failures` aggregate after all tasks complete. -/
def failures (out : List (Str × List RecFile × Bool)) : List Str :=
  (out.filter (fun t => !t.2.2)).map (·.1)

/-- `AnonymizerInterface.has_archives`. -/
def has_archives (archiveFiles : List Str) : Bool :=
  archiveFiles.any (fun f => endsWith (str ".zip") f)

/-- `AnonymizerInterface.get_last_patient_index`: note it splits on a
single underscore, so `parts[1]` of a canonical `patient__N_…` name is the
empty string and never parses. -/
def get_last_patient_index (names : List Str) : Int :=
  let indexes := names.filterMap (fun f =>
    if startsWith (str "patient__") f then ((splitU f).get? 1).bind pyInt? else none)
  if indexes.isEmpty then 0 else listMax indexes

/-- `AnonymizerInterface.run`: the guard branch reports and stops; otherwise
extract (external collaborator), compute `last_index + 1`, classify folders
and anonymize the selected patients.  Returns the final directory listing,
the per-folder task outcomes, and the printed report lines. -/
def run (archiveFiles : List Str) (folders : List Folder)
    (extract : List Folder → List Folder) (recOf : Str → List RecFile)
    (uidOf pidOf : Str → Str) :
    Option (List Str × List (Str × Bool) × List Str) :=
  if !has_archives archiveFiles then
    some (folders.map (·.name), [], [str "No archives found. Process terminated."])
  else
    let folders1 := extract folders
    let start := (get_last_patient_index (folders1.map (·.name)) + 1).toNat
    (anonimize_folders folders1).map (fun fr =>
      (fr.1,
       (to_process fr.1 start).map (fun nm =>
         (nm, (anonimize_patient (uidOf nm) (pidOf nm) (recOf nm)).2)),
       [str "Unzipping archives...", str "Starting anonymization...",
        str "Anonymization process completed."]))

end BatchOrchestrator

-- sanity examples (classification of real attribute names)
example : anonStep (str "1.2.3") (str "anon_ab") (str "BitsAllocated", DVal.num 16)
    = (str "BitsAllocated", DVal.num 16) := by decide
example : anonStep (str "1.2.3") (str "anon_ab") (str "StudyInstanceUID", DVal.str (str "9.9"))
    = (str "StudyInstanceUID", DVal.str (str "1.2.3")) := by decide
example : anonStep (str "1.2.3") (str "anon_ab") (str "PatientName", DVal.str (str "IVANOV"))
    = (str "PatientName", DVal.str []) := by decide

/-! ### Lemmas about the decimal printer and parser -/

lemma digitChar_isDigit (d : Nat) : (digitChar d).isDigit = true := by
  unfold digitChar; split_ifs <;> decide

lemma digitChar_ne_underscore (d : Nat) : digitChar d ≠ '_' := by
  unfold digitChar; split_ifs <;> decide

lemma digitChar_ne_minus (d : Nat) : digitChar d ≠ '-' := by
  unfold digitChar; split_ifs <;> decide

lemma digitChar_ne_plus (d : Nat) : digitChar d ≠ '+' := by
  unfold digitChar; split_ifs <;> decide

lemma digitChar_toNat (d : Nat) (h : d < 10) : (digitChar d).toNat - 48 = d := by
  unfold digitChar
  split_ifs with h0 h1 h2 h3 h4 h5 h6 h7 h8
  · subst h0; decide
  · subst h1; decide
  · subst h2; decide
  · subst h3; decide
  · subst h4; decide
  · subst h5; decide
  · subst h6; decide
  · subst h7; decide
  · subst h8; decide
  · have h9 : d = 9 := by omega
    subst h9; decide

lemma natToStrGo_chars (fuel : Nat) : ∀ n, ∀ c ∈ natToStrGo fuel n,
    c.isDigit = true ∧ c ≠ '_' ∧ c ≠ '-' ∧ c ≠ '+' := by
  induction fuel with
  | zero => intro n c hc; simp [natToStrGo] at hc
  | succ fuel ih =>
    intro n c hc
    by_cases hn : n = 0
    · simp [natToStrGo, hn] at hc
    · simp only [natToStrGo, if_neg hn, List.mem_append, List.mem_singleton] at hc
      rcases hc with hc | hc
      · exact ih _ c hc
      · subst hc
        exact ⟨digitChar_isDigit _, digitChar_ne_underscore _, digitChar_ne_minus _,
          digitChar_ne_plus _⟩

lemma natToStrGo_ne_nil (fuel n : Nat) (hf : 0 < fuel) (hn : n ≠ 0) :
    natToStrGo fuel n ≠ [] := by
  cases fuel with
  | zero => omega
  | succ fuel => simp [natToStrGo, if_neg hn]

lemma natToStrGo_parse (fuel : Nat) : ∀ n a, n ≤ fuel →
    (natToStrGo fuel n).foldl (fun x c => x * 10 + (c.toNat - 48)) a
      = a * 10 ^ (natToStrGo fuel n).length + n := by
  induction fuel with
  | zero =>
    intro n a hn
    have : n = 0 := by omega
    subst this; simp [natToStrGo]
  | succ fuel ih =>
    intro n a hn
    by_cases h0 : n = 0
    · subst h0; simp [natToStrGo]
    · have hdiv : n / 10 ≤ fuel := by
        have := Nat.div_lt_self (Nat.pos_of_ne_zero h0) (by norm_num : 1 < 10)
        omega
      simp only [natToStrGo, if_neg h0, List.foldl_append, List.foldl_cons, List.foldl_nil,
        List.length_append, List.length_cons, List.length_nil]
      rw [ih _ a hdiv, digitChar_toNat _ (Nat.mod_lt _ (by norm_num))]
      have hmod : n / 10 * 10 + n % 10 = n := by omega
      calc (a * 10 ^ (natToStrGo fuel (n / 10)).length + n / 10) * 10 + n % 10
          = a * (10 ^ (natToStrGo fuel (n / 10)).length * 10) + (n / 10 * 10 + n % 10) := by ring
        _ = a * 10 ^ ((natToStrGo fuel (n / 10)).length + (0 + 1)) + n := by
            rw [hmod, pow_succ]

lemma natToStr_chars (n : Nat) : ∀ c ∈ natToStr n, c.isDigit = true ∧ c ≠ '_' ∧ c ≠ '-' ∧ c ≠ '+' := by
  intro c hc
  unfold natToStr at hc
  split_ifs at hc with h0
  · simp at hc; subst hc; exact ⟨by decide, by decide, by decide, by decide⟩
  · exact natToStrGo_chars n n c hc

lemma natToStr_ne_nil (n : Nat) : natToStr n ≠ [] := by
  unfold natToStr
  split_ifs with h0
  · simp
  · exact natToStrGo_ne_nil n n (Nat.pos_of_ne_zero h0) h0

lemma digitsVal?_natToStr (n : Nat) : digitsVal? (natToStr n) = some n := by
  unfold digitsVal?
  rw [if_pos]
  · congr 1
    unfold natToStr
    split_ifs with h0
    · subst h0; decide
    · rw [natToStrGo_parse n n 0 le_rfl]; ring
  · refine ⟨natToStr_ne_nil n, ?_⟩
    rw [List.all_eq_true]
    intro c hc
    exact (natToStr_chars n c hc).1

lemma natToStr_head (n : Nat) :
    ∃ c rest, natToStr n = c :: rest ∧ c ≠ '-' ∧ c ≠ '+' := by
  rcases hs : natToStr n with _ | ⟨c, rest⟩
  · exact absurd hs (natToStr_ne_nil n)
  · have hc : c ∈ natToStr n := by rw [hs]; exact List.mem_cons_self _ _
    exact ⟨c, rest, rfl, (natToStr_chars n c hc).2.2.1, (natToStr_chars n c hc).2.2.2⟩

lemma pyInt?_natToStr (n : Nat) : pyInt? (natToStr n) = some (n : Int) := by
  obtain ⟨c, rest, hs, hminus, hplus⟩ := natToStr_head n
  rw [hs]
  have hval : digitsVal? (c :: rest) = some n := by rw [← hs]; exact digitsVal?_natToStr n
  unfold pyInt?
  split
  · next r heq =>
    rw [List.cons.injEq] at heq
    exact absurd heq.1 hminus
  · next r heq =>
    rw [List.cons.injEq] at heq
    exact absurd heq.1 hplus
  · rw [hval]; rfl

lemma pyInt?_intToStr (i : Int) : pyInt? (intToStr i) = some i := by
  unfold intToStr
  split_ifs with hneg
  · have : pyInt? ('-' :: natToStr i.natAbs)
        = (digitsVal? (natToStr i.natAbs)).map (fun n => -(n : Int)) := rfl
    rw [this, digitsVal?_natToStr]
    have h2 : -((i.natAbs : Nat) : Int) = i := by omega
    simp [h2, abs_of_neg hneg]
  · rw [pyInt?_natToStr]
    congr 1
    omega

lemma intToStr_no_underscore (i : Int) : ∀ c ∈ intToStr i, c ≠ '_' := by
  intro c hc
  unfold intToStr at hc
  split_ifs at hc with hneg
  · rcases List.mem_cons.mp hc with hc | hc
    · subst hc; decide
    · exact (natToStr_chars _ c hc).2.1
  · exact (natToStr_chars _ c hc).2.1

lemma intToStr_ne_nil (i : Int) : intToStr i ≠ [] := by
  unfold intToStr
  split_ifs with hneg
  · simp
  · exact natToStr_ne_nil _

/-! ### Lemmas about the underscore splitters -/

lemma splitU_ne_nil (s : Str) : splitU s ≠ [] := by
  match s with
  | [] => simp [splitU]
  | c :: rest =>
    unfold splitU
    split
    · simp
    · split <;> simp

lemma splitU_cons_ne (c : Char) (rest : Str) (hc : c ≠ '_') :
    splitU (c :: rest) = match splitU rest with
      | [] => [[c]]
      | h :: t => (c :: h) :: t := by
  conv_lhs => rw [splitU]
  rw [if_neg hc]

lemma splitU_no_underscore (ds : Str) (h : ∀ c ∈ ds, c ≠ '_') : splitU ds = [ds] := by
  induction ds with
  | nil => rfl
  | cons c ds ih =>
    have hc : c ≠ '_' := h c (List.mem_cons_self _ _)
    have ih' := ih (fun x hx => h x (List.mem_cons_of_mem _ hx))
    rw [splitU_cons_ne c ds hc, ih']

lemma splitU_append (ds q : Str) (h : ∀ c ∈ ds, c ≠ '_') :
    splitU (ds ++ '_' :: q) = ds :: splitU q := by
  induction ds with
  | nil =>
    show splitU ('_' :: q) = [] :: splitU q
    conv_lhs => rw [splitU]
    rw [if_pos rfl]
  | cons c ds ih =>
    have hc : c ≠ '_' := h c (List.mem_cons_self _ _)
    have ih' := ih (fun x hx => h x (List.mem_cons_of_mem _ hx))
    show splitU (c :: (ds ++ '_' :: q)) = (c :: ds) :: splitU q
    rw [splitU_cons_ne c _ hc, ih']

lemma splitUU_ne_nil (s : Str) : splitUU s ≠ [] := by
  match s with
  | [] => simp [splitUU]
  | [c] => simp [splitUU]
  | c1 :: c2 :: rest =>
    unfold splitUU
    split
    · simp
    · split <;> simp

lemma splitUU_cons_cons (c1 c2 : Char) (rest : Str) (hne : ¬(c1 = '_' ∧ c2 = '_')) :
    splitUU (c1 :: c2 :: rest) = match splitUU (c2 :: rest) with
      | [] => [[c1]]
      | h :: t => (c1 :: h) :: t := by
  conv_lhs => rw [splitUU]
  rw [if_neg hne]

lemma splitUU_cons_append (ds : Str) (hds : ∀ c ∈ ds, c ≠ '_') (s : Str) :
    splitUU (ds ++ s) = (ds ++ (splitUU s).headD []) :: (splitUU s).tail := by
  induction ds with
  | nil =>
    rcases hnn : splitUU s with _ | ⟨h, t⟩
    · exact absurd hnn (splitUU_ne_nil s)
    · simp [hnn]
  | cons c ds ih =>
    have hc : c ≠ '_' := hds c (List.mem_cons_self _ _)
    have ih' := ih (fun x hx => hds x (List.mem_cons_of_mem _ hx))
    show splitUU (c :: (ds ++ s)) = ((c :: ds) ++ (splitUU s).headD []) :: (splitUU s).tail
    rcases hcase : ds ++ s with _ | ⟨r1, rs⟩
    · obtain ⟨hds0, hs0⟩ := List.append_eq_nil.mp hcase
      subst hds0; subst hs0
      simp [splitUU]
    · rw [splitUU_cons_cons c r1 rs (fun hand => hc hand.1)]
      rw [hcase] at ih'
      rw [ih']
      simp

lemma splitUU_underscore_head (r : Str) :
    (splitUU ('_' :: r)).headD [] = [] ∨ ∃ q, (splitUU ('_' :: r)).headD [] = '_' :: q := by
  match r with
  | [] => right; exact ⟨[], rfl⟩
  | r1 :: rs =>
    by_cases h1 : r1 = '_'
    · left
      subst h1
      show (splitUU ('_' :: '_' :: rs)).headD [] = []
      conv_lhs => rw [splitUU]
      rw [if_pos ⟨rfl, rfl⟩]
      rfl
    · right
      show ∃ q, (splitUU ('_' :: r1 :: rs)).headD [] = '_' :: q
      rw [splitUU_cons_cons '_' r1 rs (fun hand => h1 hand.2)]
      rcases hnn : splitUU (r1 :: rs) with _ | ⟨h, t⟩
      · exact absurd hnn (splitUU_ne_nil _)
      · exact ⟨h, rfl⟩

/-! ### Parsing the canonical folder names the classifier generates -/

lemma parseIdx_canonName (i : Int) (sex age : Str) :
    parseIdx (canonName i sex age) = some i := by
  have hpat : ∀ c ∈ str "patient", c ≠ '_' := by decide
  have hshape : canonName i sex age
      = str "patient" ++ ('_' :: '_' :: (intToStr i ++ '_' :: (sex ++ '_' :: age))) := rfl
  have huu2 : splitUU ('_' :: '_' :: (intToStr i ++ '_' :: (sex ++ '_' :: age)))
      = [] :: splitUU (intToStr i ++ '_' :: (sex ++ '_' :: age)) := by
    conv_lhs => rw [splitUU]
    rw [if_pos ⟨rfl, rfl⟩]
  have h1 : splitUU (canonName i sex age)
      = str "patient" :: splitUU (intToStr i ++ '_' :: (sex ++ '_' :: age)) := by
    rw [hshape, splitUU_cons_append (str "patient") hpat, huu2]
    simp
  have h2 : splitUU (intToStr i ++ '_' :: (sex ++ '_' :: age))
      = (intToStr i ++ (splitUU ('_' :: (sex ++ '_' :: age))).headD [])
          :: (splitUU ('_' :: (sex ++ '_' :: age))).tail :=
    splitUU_cons_append (intToStr i) (intToStr_no_underscore i) _
  set h0 := (splitUU ('_' :: (sex ++ '_' :: age))).headD [] with hh0
  have hfirst : (splitU (intToStr i ++ h0)).get? 0 = some (intToStr i) := by
    rcases splitUU_underscore_head (sex ++ '_' :: age) with hcase | ⟨q, hcase⟩
    · rw [← hh0] at hcase
      rw [hcase, List.append_nil, splitU_no_underscore _ (intToStr_no_underscore i)]
      rfl
    · rw [← hh0] at hcase
      rw [hcase, splitU_append _ _ (intToStr_no_underscore i)]
      rfl
  unfold parseIdx
  rw [h1, h2]
  simp only [List.get?_cons_succ, List.get?_cons_zero, Option.some_bind]
  rw [hfirst]
  simp only [Option.some_bind]
  exact pyInt?_intToStr i

lemma canonName_startsWith (i : Int) (sex age : Str) :
    startsWith (str "patient__") (canonName i sex age) = true := by
  unfold startsWith canonName
  exact List.isPrefixOf_iff_prefix.mpr (List.prefix_append _ _)

/-! ### Lemmas about the index bookkeeping of the folder classifier -/

lemma skipUsed_of_lt (fuel : Nat) (used : List Int) (n : Int) (h : ∀ u ∈ used, u < n) :
    skipUsed fuel used n = n := by
  cases fuel with
  | zero => rfl
  | succ fuel =>
    unfold skipUsed
    rw [if_neg]
    intro hmem
    exact absurd (h n hmem) (lt_irrefl n)

lemma foldl_max_ge_init (t : List Int) : ∀ a : Int, a ≤ t.foldl max a := by
  induction t with
  | nil => intro a; exact le_rfl
  | cons b t ih =>
    intro a
    calc a ≤ max a b := le_max_left a b
      _ ≤ (b :: t).foldl max a := ih (max a b)

lemma foldl_max_ge_mem (t : List Int) : ∀ (a x : Int), x ∈ t → x ≤ t.foldl max a := by
  induction t with
  | nil => intro a x hx; simp at hx
  | cons b t ih =>
    intro a x hx
    rcases List.mem_cons.mp hx with h | h
    · subst h
      calc x ≤ max a x := le_max_right a x
        _ ≤ t.foldl max (max a x) := foldl_max_ge_init t _
    · exact ih (max a b) x h

lemma listMax_ge (l : List Int) (x : Int) (hx : x ∈ l) : x ≤ listMax l := by
  cases l with
  | nil => simp at hx
  | cons h t =>
    rcases List.mem_cons.mp hx with hc | hc
    · subst hc; exact foldl_max_ge_init t x
    · exact foldl_max_ge_mem t h x hc

/-- The `used_indexes`/`next_index` state at the start of the renaming loop
satisfies: every used index is below the next index. -/
lemma baseInv (used : List Int) :
    ∀ u ∈ used, u < (if used.isEmpty then 1 else listMax used + 1) := by
  intro u hu
  have hne : used ≠ [] := by
    intro h; subst h; simp at hu
  rw [if_neg (by simpa using hne)]
  have := listMax_ge used u hu
  omega

/-- Invariant propagation through the renaming loop: when every used index is
below the next one, the loop assigns the consecutive indices
`next, next+1, …` — all fresh, pairwise distinct, and every generated name is
a canonical `patient__…` name whose index parses back. -/
lemma classifyLoop_spec (fs : List Folder) : ∀ (used : List Int) (next : Int)
    (rs : List (Str × Str)),
    classifyLoop used next fs = some rs → (∀ u ∈ used, u < next) →
    (∀ i ∈ rs.filterMap (fun p => parseIdx p.2), next ≤ i)
    ∧ (rs.filterMap (fun p => parseIdx p.2)).Nodup
    ∧ (∀ p ∈ rs, startsWith (str "patient__") p.2 = true) := by
  induction fs with
  | nil =>
    intro used next rs h hinv
    simp only [classifyLoop] at h
    obtain rfl : ([] : List (Str × Str)) = rs := Option.some.inj h
    simp
  | cons f fs ih =>
    intro used next rs h hinv
    unfold classifyLoop at h
    rcases hda : f.dicomSexAge with _ | info
    · rw [hda] at h; exact absurd h (by simp)
    · rw [hda] at h
      simp only [Option.map_eq_some'] at h
      obtain ⟨rs', hrs', hconsrs⟩ := h
      have hidx : skipUsed (used.length + 1) used next = next := skipUsed_of_lt _ _ _ hinv
      rw [hidx] at hrs' hconsrs
      have hinv' : ∀ u ∈ next :: used, u < next + 1 := by
        intro u hu
        rcases List.mem_cons.mp hu with hc | hc
        · subst hc; omega
        · have := hinv u hc; omega
      obtain ⟨ih1, ih2, ih3⟩ := ih (next :: used) (next + 1) rs' hrs' hinv'
      subst hconsrs
      refine ⟨?_, ?_, ?_⟩
      · intro i hi
        rw [List.filterMap_cons] at hi
        rw [parseIdx_canonName] at hi
        rcases List.mem_cons.mp hi with hc | hc
        · subst hc; exact le_rfl
        · have := ih1 i hc; omega
      · rw [List.filterMap_cons, parseIdx_canonName]
        rw [List.nodup_cons]
        refine ⟨?_, ih2⟩
        intro hmem
        have := ih1 _ hmem
        omega
      · intro p hp
        rcases List.mem_cons.mp hp with hc | hc
        · subst hc; exact canonName_startsWith _ _ _
        · exact ih3 p hc

/-- The canonical folder indices present in a directory listing: indices of
folders matching the canonical scheme, parsed the way the classifier does. -/
def canonicalIndices (names : List Str) : List Int :=
  (names.filter (startsWith (str "patient__"))).filterMap parseIdx

/-- C6: running folder classification a second time on a directory tree it has
fully processed performs no renames and no errors — every folder matching the
canonical naming scheme is skipped and the listing is unchanged. -/
theorem claim_C6_classification_idempotent (folders : List Folder) (final : List Str)
    (rens : List (Str × Str)) (d : Str → Option (Str × Str))
    (h : anonimize_folders folders = some (final, rens)) :
    anonimize_folders (final.map (fun n => ⟨n, d n⟩)) = some (final, []) := by
  unfold anonimize_folders at h
  simp only [Option.map_eq_some'] at h
  obtain ⟨rs, hcl, heq⟩ := h
  have hfinal : final
      = ((folders.map (·.name)).filter (startsWith (str "patient__"))) ++ rs.map (·.2) := by
    have := congrArg Prod.fst heq
    simpa using this.symm
  have hinv := baseInv
    (((folders.map (·.name)).filter (startsWith (str "patient__"))).filterMap parseIdx)
  have hspec := classifyLoop_spec _ _ _ _ hcl hinv
  have hallstarts : ∀ n ∈ final, startsWith (str "patient__") n = true := by
    intro n hn
    rw [hfinal] at hn
    rcases List.mem_append.mp hn with hc | hc
    · exact (List.mem_filter.mp hc).2
    · obtain ⟨p, hp, hpn⟩ := List.mem_map.mp hc
      rw [← hpn]
      exact hspec.2.2 p hp
  have hnames : (final.map (fun n => (⟨n, d n⟩ : Folder))).map (·.name) = final := by
    have hcomp : ((fun x : Folder => x.name) ∘ fun n => (⟨n, d n⟩ : Folder)) = id := by
      funext n; rfl
    rw [List.map_map, hcomp, List.map_id]
  have hfilter : final.filter (startsWith (str "patient__")) = final :=
    List.filter_eq_self.mpr hallstarts
  have hnon : (final.map (fun n => (⟨n, d n⟩ : Folder))).filter
      (fun f => !(startsWith (str "patient__") f.name)) = [] := by
    rw [List.filter_eq_nil_iff]
    intro f hf
    obtain ⟨n, hn, rfl⟩ := List.mem_map.mp hf
    simp [hallstarts n hn]
  simp only [anonimize_folders]
  rw [hnames, hfilter, hnon]
  simp [classifyLoop]

/-- C7: after folder classification, the canonical indices contain no
duplicates (provided the pre-existing ones did not), and every index assigned
during the run is strictly greater than every index existing before it. -/
theorem claim_C7_index_uniqueness (folders : List Folder) (final : List Str)
    (rens : List (Str × Str))
    (h : anonimize_folders folders = some (final, rens))
    (hnd : (canonicalIndices (folders.map (·.name))).Nodup) :
    (canonicalIndices final).Nodup
    ∧ ∀ i ∈ rens.filterMap (fun p => parseIdx p.2),
        ∀ j ∈ canonicalIndices (folders.map (·.name)), j < i := by
  unfold anonimize_folders at h
  simp only [Option.map_eq_some'] at h
  obtain ⟨rs, hcl, heq⟩ := h
  have hfinal : final
      = ((folders.map (·.name)).filter (startsWith (str "patient__"))) ++ rs.map (·.2) := by
    have := congrArg Prod.fst heq
    simpa using this.symm
  have hrens : rens = rs := by
    have := congrArg Prod.snd heq
    simpa using this.symm
  have hinv := baseInv
    (((folders.map (·.name)).filter (startsWith (str "patient__"))).filterMap parseIdx)
  have hspec := classifyLoop_spec _ _ _ _ hcl hinv
  have husedlt : ∀ j ∈ canonicalIndices (folders.map (·.name)),
      ∀ i ∈ rs.filterMap (fun p => parseIdx p.2), j < i := by
    intro j hj i hi
    have h1 := hinv j hj
    have h2 := hspec.1 i hi
    omega
  constructor
  · rw [hfinal]
    show ((((folders.map (·.name)).filter (startsWith (str "patient__")))
        ++ rs.map (·.2)).filter (startsWith (str "patient__"))).filterMap parseIdx |>.Nodup
    rw [List.filter_append]
    have hf1 : ((folders.map (·.name)).filter (startsWith (str "patient__"))).filter
        (startsWith (str "patient__"))
        = (folders.map (·.name)).filter (startsWith (str "patient__")) := by
      apply List.filter_eq_self.mpr
      intro a ha
      exact (List.mem_filter.mp ha).2
    have hf2 : (rs.map (·.2)).filter (startsWith (str "patient__")) = rs.map (·.2) := by
      apply List.filter_eq_self.mpr
      intro a ha
      obtain ⟨p, hp, hpa⟩ := List.mem_map.mp ha
      rw [← hpa]
      exact hspec.2.2 p hp
    rw [hf1, hf2, List.filterMap_append]
    have hmapmap : (rs.map (·.2)).filterMap parseIdx
        = rs.filterMap (fun p => parseIdx p.2) := by
      rw [List.filterMap_map]
      rfl
    rw [hmapmap]
    apply List.Nodup.append hnd hspec.2.1
    intro a ha1 ha2
    exact absurd rfl (ne_of_lt (husedlt a ha1 a ha2))
  · intro i hi j hj
    rw [hrens] at hi
    exact husedlt j hj i hi

/-- Witness for C6 at a concrete one-folder tree. -/
theorem claim_C6_witness :
    anonimize_folders ([str "patient__1_F_45"].map (fun n => ⟨n, none⟩))
      = some ([str "patient__1_F_45"], []) :=
  claim_C6_classification_idempotent
    [⟨str "Ivanova_ж45", some (str "NO_SEX", str "NO_AGE")⟩]
    [str "patient__1_F_45"] [(str "Ivanova_ж45", str "patient__1_F_45")]
    (fun _ => none) (by decide)

/-- Witness for C7 at a concrete tree with one canonical and one raw folder. -/
theorem claim_C7_witness :
    (canonicalIndices [str "patient__2_M_30", str "patient__3_NO_SEX_NO_AGE"]).Nodup
      ∧ (2 : Int) < 3 := by
  have h := claim_C7_index_uniqueness
    [⟨str "patient__2_M_30", none⟩, ⟨str "Ivanov", some (str "NO_SEX", str "NO_AGE")⟩]
    [str "patient__2_M_30", str "patient__3_NO_SEX_NO_AGE"]
    [(str "Ivanov", str "patient__3_NO_SEX_NO_AGE")]
    (by decide) (by decide)
  exact ⟨h.1, h.2 3 (by decide) 2 (by decide)⟩

/-! ### Lemmas about per-record anonymization -/

lemma anonStep_fst (uid pid : Str) (nv : Str × DVal) : (anonStep uid pid nv).1 = nv.1 := by
  simp only [anonStep]
  split_ifs <;> rfl

lemma anonStep_studyuid (uid pid : Str) (nv : Str × DVal)
    (h1 : containsSub (str "study") (pyLower nv.1) = true)
    (h2 : containsSub (str "uid") (pyLower nv.1) = true) :
    anonStep uid pid nv = (nv.1, DVal.str uid) := by
  have hany : PATTERNS_FOR_DICOM_ANONYMIZER.any
      (fun p => containsSub p (pyLower nv.1)) = true :=
    List.any_eq_true.mpr ⟨str "study", by decide, h1⟩
  unfold anonStep
  simp only [hany, h1, h2, Bool.and_self, if_true]

lemma anonStep_preserved (uid pid : Str) (nv : Str × DVal)
    (hcrit : is_critical_patterns (pyLower nv.1) = true)
    (hsu : ¬(containsSub (str "study") (pyLower nv.1) = true
            ∧ containsSub (str "uid") (pyLower nv.1) = true))
    (hpid : ¬(containsSub (str "patient") (pyLower nv.1) = true
            ∧ containsSub (str "id") (pyLower nv.1) = true)) :
    anonStep uid pid nv = nv := by
  have hsu' : (containsSub (str "study") (pyLower nv.1)
      && containsSub (str "uid") (pyLower nv.1)) = false := by
    cases hS : containsSub (str "study") (pyLower nv.1)
    · simp
    · cases hU : containsSub (str "uid") (pyLower nv.1)
      · simp
      · exact absurd ⟨hS, hU⟩ hsu
  have hpid' : (containsSub (str "patient") (pyLower nv.1)
      && containsSub (str "id") (pyLower nv.1)) = false := by
    cases hS : containsSub (str "patient") (pyLower nv.1)
    · simp
    · cases hU : containsSub (str "id") (pyLower nv.1)
      · simp
      · exact absurd ⟨hS, hU⟩ hpid
  simp [anonStep, hsu', hpid', hcrit]

lemma anonimize_patient_all_some (uid pid : Str) : ∀ rs : List RecFile,
    (∀ r ∈ rs, r.isSome = true) →
    anonimize_patient uid pid rs = (rs.map (Option.map (processRecord uid pid)), true) := by
  intro rs
  induction rs with
  | nil => intro _; rfl
  | cons r rest ih =>
    intro h
    cases r with
    | none => exact absurd (h none (List.mem_cons_self _ _)) (by simp)
    | some d0 =>
      have ih' := ih (fun x hx => h x (List.mem_cons_of_mem _ hx))
      have hstep : anonimize_patient uid pid (some d0 :: rest)
          = (some (processRecord uid pid d0) :: (anonimize_patient uid pid rest).1,
             (anonimize_patient uid pid rest).2) := rfl
      rw [hstep, ih']
      rfl

lemma anonimize_patient_fault (uid pid : Str) : ∀ (rs : List RecFile) (i : Nat),
    rs.get? i = some none →
    (∀ j, j < i → ∃ dd, rs.get? j = some (some dd)) →
    (anonimize_patient uid pid rs).2 = false
    ∧ (∀ j, j < i → ∀ dd, rs.get? j = some (some dd) →
        (anonimize_patient uid pid rs).1.get? j = some (some (processRecord uid pid dd)))
    ∧ (∀ j, i ≤ j → (anonimize_patient uid pid rs).1.get? j = rs.get? j) := by
  intro rs
  induction rs with
  | nil => intro i hi _; simp at hi
  | cons r rest ih =>
    intro i hi hbef
    cases r with
    | none =>
      refine ⟨rfl, ?_, ?_⟩
      · intro j hj dd hjv
        cases i with
        | zero => omega
        | succ i' =>
          obtain ⟨dd0, h0⟩ := hbef 0 (Nat.succ_pos _)
          simp at h0
      · intro j _
        rfl
    | some d0 =>
      cases i with
      | zero => simp at hi
      | succ i' =>
        have hi' : rest.get? i' = some none := by simpa using hi
        have hbef' : ∀ j, j < i' → ∃ dd, rest.get? j = some (some dd) := by
          intro j hj
          obtain ⟨dd, hdd⟩ := hbef (j + 1) (by omega)
          exact ⟨dd, by simpa using hdd⟩
        obtain ⟨ihA, ihB, ihC⟩ := ih i' hi' hbef'
        have hstep : anonimize_patient uid pid (some d0 :: rest)
            = (some (processRecord uid pid d0) :: (anonimize_patient uid pid rest).1,
               (anonimize_patient uid pid rest).2) := rfl
        rw [hstep]
        refine ⟨ihA, ?_, ?_⟩
        · intro j hj dd hjv
          cases j with
          | zero =>
            simp only [List.get?_cons_zero, Option.some.injEq] at hjv
            subst hjv
            rfl
          | succ j' =>
            have := ihB j' (by omega) dd (by simpa using hjv)
            simpa using this
        · intro j hj
          cases j with
          | zero => omega
          | succ j' =>
            have := ihC j' (by omega)
            simpa using this

lemma length_filter_bool {α : Type} (l : List α) (p : α → Bool) :
    (l.filter p).length + (l.filter (fun a => !p a)).length = l.length := by
  induction l with
  | nil => rfl
  | cons a l ih =>
    simp only [List.filter_cons]
    by_cases h : p a = true
    · rw [if_pos h, if_neg (by simp [h])]
      simp only [List.length_cons]
      omega
    · rw [if_neg h, if_pos (by simp [Bool.not_eq_true'] at h ⊢; exact h)]
      simp only [List.length_cons]
      omega

/-- C3: within one folder processed in one pass, every attribute whose
lower-cased name contains both "study" and "uid" receives, in every record,
the single UID generated for that folder; and two distinct folders of the
same run receive distinct values (the generator's global uniqueness is
modelled as injectivity of the per-folder UID supply). -/
theorem claim_C3_one_identity_per_folder (uidOf pidOf : Str → Str)
    (hinj : Function.Injective uidOf)
    (sel : List (Str × List RecFile)) (p q : Str × List RecFile)
    (hp : p ∈ sel) (hq : q ∈ sel) (hne : p.1 ≠ q.1)
    (hok : ∀ r ∈ p.2, r.isSome = true) :
    (p.1, anonimize_patient (uidOf p.1) (pidOf p.1) p.2) ∈ run_folders uidOf pidOf sel
    ∧ (∀ r ∈ (anonimize_patient (uidOf p.1) (pidOf p.1) p.2).1, ∀ dd, r = some dd →
        ∀ nv ∈ dd, containsSub (str "study") (pyLower nv.1) = true →
          containsSub (str "uid") (pyLower nv.1) = true → nv.2 = DVal.str (uidOf p.1))
    ∧ uidOf p.1 ≠ uidOf q.1 := by
  refine ⟨List.mem_map.mpr ⟨p, hp, rfl⟩, ?_, fun h => hne (hinj h)⟩
  rw [anonimize_patient_all_some _ _ _ hok]
  intro r hr dd hdd nv hnv h1 h2
  obtain ⟨r0, hr0, hr0e⟩ := List.mem_map.mp hr
  rcases r0 with _ | d0
  · rw [← hr0e] at hdd; simp at hdd
  · rw [← hr0e] at hdd
    simp only [Option.map_some', Option.some.injEq] at hdd
    subst hdd
    obtain ⟨nv0, hnv0, hnv0e⟩ := List.mem_map.mp hnv
    rw [← hnv0e] at h1 h2 ⊢
    rw [anonStep_fst] at h1 h2
    rw [anonStep_studyuid _ _ _ h1 h2]

/-- Witness for C3 on a two-folder batch with an injective UID supply. -/
theorem claim_C3_witness :
    (str "patient__1_M_30",
        anonimize_patient ('u' :: str "patient__1_M_30") ('p' :: str "patient__1_M_30") [some []])
      ∈ run_folders (fun s => 'u' :: s) (fun s => 'p' :: s)
          [(str "patient__1_M_30", [some []]), (str "patient__2_F_40", [])]
    ∧ 'u' :: str "patient__1_M_30" ≠ 'u' :: str "patient__2_F_40" := by
  have h := claim_C3_one_identity_per_folder (fun s => 'u' :: s) (fun s => 'p' :: s)
    (fun a b hab => by simpa using hab)
    [(str "patient__1_M_30", [some []]), (str "patient__2_F_40", [])]
    (str "patient__1_M_30", [some []]) (str "patient__2_F_40", [])
    (by decide) (by decide) (by decide) (by decide)
  exact ⟨h.1, h.2.2⟩

/-- C4: the first faulting record of a folder aborts that folder's task with
result `False`: earlier records are already persisted in anonymized form, the
faulting record and all later ones are untouched, the folder is recorded in
the failures aggregate, every other folder's task is computed from its own
records alone, and the final summary counts partition the batch. -/
theorem claim_C4_first_fault_aborts_folder (uidOf pidOf : Str → Str)
    (F : List (Str × List RecFile)) (k i : Nat) (nm : Str) (rs : List RecFile)
    (hk : k < F.length) (hkv : F.get ⟨k, hk⟩ = (nm, rs))
    (hfault : rs.get? i = some none)
    (hbefore : ∀ j, j < i → ∃ dd, rs.get? j = some (some dd)) :
    (anonimize_patient (uidOf nm) (pidOf nm) rs).2 = false
    ∧ (∀ j, j < i → ∀ dd, rs.get? j = some (some dd) →
        (anonimize_patient (uidOf nm) (pidOf nm) rs).1.get? j
          = some (some (processRecord (uidOf nm) (pidOf nm) dd)))
    ∧ (∀ j, i ≤ j → (anonimize_patient (uidOf nm) (pidOf nm) rs).1.get? j = rs.get? j)
    ∧ nm ∈ failures (run_folders uidOf pidOf F)
    ∧ (∀ m, (run_folders uidOf pidOf F).get? m
        = (F.get? m).map (fun fr => (fr.1, anonimize_patient (uidOf fr.1) (pidOf fr.1) fr.2)))
    ∧ (successes (run_folders uidOf pidOf F)).length
        + (failures (run_folders uidOf pidOf F)).length = F.length := by
  obtain ⟨hA, hB, hC⟩ := anonimize_patient_fault (uidOf nm) (pidOf nm) rs i hfault hbefore
  refine ⟨hA, hB, hC, ?_, ?_, ?_⟩
  · have hmem : (nm, anonimize_patient (uidOf nm) (pidOf nm) rs)
        ∈ run_folders uidOf pidOf F := by
      apply List.mem_map.mpr
      exact ⟨(nm, rs), by rw [← hkv]; exact List.get_mem F k hk, rfl⟩
    unfold failures
    apply List.mem_map.mpr
    refine ⟨(nm, anonimize_patient (uidOf nm) (pidOf nm) rs), ?_, rfl⟩
    apply List.mem_filter.mpr
    exact ⟨hmem, by simp [hA]⟩
  · intro m
    unfold run_folders
    exact List.get?_map _ _ _
  · unfold successes failures
    rw [List.length_map, List.length_map, length_filter_bool]
    unfold run_folders
    rw [List.length_map]

/-- Witness for C4: a folder of three records whose second record faults. -/
theorem claim_C4_witness :
    (anonimize_patient (str "1.2.3") (str "anon_1") [some [], none, some []]).2 = false
    ∧ str "patient__1_M_30" ∈ failures (run_folders (fun _ => str "1.2.3") (fun _ => str "anon_1")
        [(str "patient__1_M_30", [some [], none, some []])])
    ∧ (successes (run_folders (fun _ => str "1.2.3") (fun _ => str "anon_1")
          [(str "patient__1_M_30", [some [], none, some []])])).length
      + (failures (run_folders (fun _ => str "1.2.3") (fun _ => str "anon_1")
          [(str "patient__1_M_30", [some [], none, some []])])).length = 1 := by
  have h := claim_C4_first_fault_aborts_folder (fun _ => str "1.2.3") (fun _ => str "anon_1")
    [(str "patient__1_M_30", [some [], none, some []])] 0 1
    (str "patient__1_M_30") [some [], none, some []]
    (by decide) (by decide) (by decide)
    (by intro j hj; interval_cases j; exact ⟨[], rfl⟩)
  exact ⟨h.1, h.2.2.2.1, h.2.2.2.2.2⟩

/-! ### Lemmas about the attribute table and geometry repair -/

lemma getAttr?_setAttr_self (d : Dicom) (n : Str) (v : DVal) :
    getAttr? (setAttr d n v) n = some v := by
  induction d with
  | nil => simp [setAttr, getAttr?]
  | cons p rest ih =>
    by_cases h : p.1 = n
    · simp [setAttr, h, getAttr?]
    · simp only [setAttr, if_neg h]
      unfold getAttr?
      rw [List.find?_cons_of_neg _ (by simpa using h)]
      exact ih

lemma getAttr?_setAttr_ne (d : Dicom) (n m : Str) (v : DVal) (hnm : m ≠ n) :
    getAttr? (setAttr d n v) m = getAttr? d m := by
  induction d with
  | nil =>
    simp only [setAttr]
    unfold getAttr?
    rw [List.find?_cons_of_neg _ (by simpa using fun hh : n = m => hnm hh.symm)]
  | cons p rest ih =>
    by_cases h : p.1 = n
    · simp only [setAttr, if_pos h]
      unfold getAttr?
      rw [List.find?_cons_of_neg _ (by simpa using fun hh : n = m => hnm hh.symm),
        List.find?_cons_of_neg _ (by simpa using fun hh : p.1 = m => hnm (hh.symm.trans h))]
    · simp only [setAttr, if_neg h]
      by_cases hm : p.1 = m
      · unfold getAttr?
        rw [List.find?_cons_of_pos _ (by simpa using hm),
          List.find?_cons_of_pos _ (by simpa using hm)]
      · unfold getAttr?
        rw [List.find?_cons_of_neg _ (by simpa using hm),
          List.find?_cons_of_neg _ (by simpa using hm)]
        exact ih

lemma hasAttr_eq (d : Dicom) (n : Str) : hasAttr d n = (getAttr? d n).isSome := by
  induction d with
  | nil => rfl
  | cons p rest ih =>
    by_cases h : p.1 = n
    · simp [hasAttr, getAttr?, h]
    · unfold hasAttr getAttr?
      rw [List.any_cons, List.find?_cons_of_neg _ (by simpa using h)]
      simp only [h, decide_False, Bool.false_or]
      exact ih

lemma fix_iop_of_bad (d : Dicom)
    (h : getAttr? d nIOP = none ∨ ∃ v, getAttr? d nIOP = some v ∧ dvFalsy v = true) :
    getAttr? (fix_dicom_geometry d).1 nIOP = some defaultIOP := by
  have hc : (!hasAttr d nIOP || dvFalsy (getAttrD d nIOP (DVal.str []))) = true := by
    rcases h with h | ⟨v, hv, hf⟩
    · simp [hasAttr_eq, h]
    · simp [hasAttr_eq, hv, getAttrD, hf]
  simp only [fix_dicom_geometry, hc]
  simp only [if_true]
  split_ifs <;>
    simp [getAttr?_setAttr_ne _ _ _ _ (by decide : nIOP ≠ nSBS),
      getAttr?_setAttr_ne _ _ _ _ (by decide : nIOP ≠ nPS), getAttr?_setAttr_self]

lemma setIOP_ps (d0 : Dicom) (v : DVal) : getAttr? (setAttr d0 nIOP v) nPS = getAttr? d0 nPS :=
  getAttr?_setAttr_ne d0 nIOP nPS v (by decide)

lemma setSBS_ps (d0 : Dicom) (v : DVal) : getAttr? (setAttr d0 nSBS v) nPS = getAttr? d0 nPS :=
  getAttr?_setAttr_ne d0 nSBS nPS v (by decide)

lemma setPS_ps (d0 : Dicom) (v : DVal) : getAttr? (setAttr d0 nPS v) nPS = some v :=
  getAttr?_setAttr_self d0 nPS v

lemma setPS_iop (d0 : Dicom) (v : DVal) : getAttr? (setAttr d0 nPS v) nIOP = getAttr? d0 nIOP :=
  getAttr?_setAttr_ne d0 nPS nIOP v (by decide)

lemma setSBS_iop (d0 : Dicom) (v : DVal) : getAttr? (setAttr d0 nSBS v) nIOP = getAttr? d0 nIOP :=
  getAttr?_setAttr_ne d0 nSBS nIOP v (by decide)

lemma setIOP_iop (d0 : Dicom) (v : DVal) : getAttr? (setAttr d0 nIOP v) nIOP = some v :=
  getAttr?_setAttr_self d0 nIOP v

lemma setIOP_sbs (d0 : Dicom) (v : DVal) : getAttr? (setAttr d0 nIOP v) nSBS = getAttr? d0 nSBS :=
  getAttr?_setAttr_ne d0 nIOP nSBS v (by decide)

lemma setPS_sbs (d0 : Dicom) (v : DVal) : getAttr? (setAttr d0 nPS v) nSBS = getAttr? d0 nSBS :=
  getAttr?_setAttr_ne d0 nPS nSBS v (by decide)

lemma setSBS_sbs (d0 : Dicom) (v : DVal) : getAttr? (setAttr d0 nSBS v) nSBS = some v :=
  getAttr?_setAttr_self d0 nSBS v

lemma setIOP_st (d0 : Dicom) (v : DVal) : getAttr? (setAttr d0 nIOP v) nST = getAttr? d0 nST :=
  getAttr?_setAttr_ne d0 nIOP nST v (by decide)

lemma setPS_st (d0 : Dicom) (v : DVal) : getAttr? (setAttr d0 nPS v) nST = getAttr? d0 nST :=
  getAttr?_setAttr_ne d0 nPS nST v (by decide)

lemma fix_iop_of_good (d : Dicom) (v : DVal) (hv : getAttr? d nIOP = some v)
    (hf : dvFalsy v = false) :
    getAttr? (fix_dicom_geometry d).1 nIOP = some v := by
  simp only [fix_dicom_geometry, hasAttr_eq, getAttrD]
  split_ifs with h1 h2 h3 h4 h5 h6 h7 <;>
    simp_all [setIOP_iop, setPS_iop, setSBS_iop]

lemma fix_ps_of_bad (d : Dicom)
    (h : getAttr? d nPS = none ∨ getAttr? d nPS = some (DVal.numList [0, 0])) :
    getAttr? (fix_dicom_geometry d).1 nPS = some defaultPS := by
  rcases h with h | h <;>
  · simp only [fix_dicom_geometry, hasAttr_eq, getAttrD]
    split_ifs with h1 h2 h3 h4 h5 h6 h7 <;>
      simp_all [setIOP_ps, setPS_ps, setSBS_ps]

lemma fix_ps_of_good (d : Dicom) (v : DVal) (hv : getAttr? d nPS = some v)
    (hz : v ≠ DVal.numList [0, 0]) :
    getAttr? (fix_dicom_geometry d).1 nPS = some v := by
  simp only [fix_dicom_geometry, hasAttr_eq, getAttrD]
  split_ifs with h1 h2 h3 h4 h5 h6 h7 <;>
    simp_all [setIOP_ps, setPS_ps, setSBS_ps]

lemma fix_sbs_of_missing (d : Dicom) (h : getAttr? d nSBS = none) :
    getAttr? (fix_dicom_geometry d).1 nSBS = some (getAttrD d nST defaultSBS) := by
  simp only [fix_dicom_geometry, hasAttr_eq, getAttrD]
  split_ifs with h1 h2 h3 h4 h5 h6 h7 <;>
    simp_all [setIOP_sbs, setPS_sbs, setSBS_sbs, setIOP_st, setPS_st, getAttrD]

lemma fix_sbs_of_present (d : Dicom) (v : DVal) (hv : getAttr? d nSBS = some v) :
    getAttr? (fix_dicom_geometry d).1 nSBS = some v := by
  simp only [fix_dicom_geometry, hasAttr_eq, getAttrD]
  split_ifs with h1 h2 h3 h4 h5 h6 h7 <;>
    simp_all [setIOP_sbs, setPS_sbs, setSBS_sbs]

lemma fix_shape_iop (d : Dicom) :
    ∃ w, getAttr? (fix_dicom_geometry d).1 nIOP = some w ∧ dvFalsy w = false := by
  rcases hv : getAttr? d nIOP with _ | v
  · exact ⟨defaultIOP, fix_iop_of_bad d (Or.inl hv), by decide⟩
  · by_cases hf : dvFalsy v = true
    · exact ⟨defaultIOP, fix_iop_of_bad d (Or.inr ⟨v, hv, hf⟩), by decide⟩
    · exact ⟨v, fix_iop_of_good d v hv (by simpa using hf), by simpa using hf⟩

lemma fix_shape_ps (d : Dicom) :
    ∃ w, getAttr? (fix_dicom_geometry d).1 nPS = some w ∧ w ≠ DVal.numList [0, 0] := by
  rcases hv : getAttr? d nPS with _ | v
  · exact ⟨defaultPS, fix_ps_of_bad d (Or.inl hv), by decide⟩
  · by_cases hz : v = DVal.numList [0, 0]
    · exact ⟨defaultPS, fix_ps_of_bad d (Or.inr (hz ▸ hv)), by decide⟩
    · exact ⟨v, fix_ps_of_good d v hv hz, hz⟩

lemma fix_shape_sbs (d : Dicom) :
    ∃ w, getAttr? (fix_dicom_geometry d).1 nSBS = some w := by
  rcases hv : getAttr? d nSBS with _ | v
  · exact ⟨getAttrD d nST defaultSBS, fix_sbs_of_missing d hv⟩
  · exact ⟨v, fix_sbs_of_present d v hv⟩

/-- A record on which no repair condition fires passes through
`fix_dicom_geometry` unchanged with `changed = False`. -/
lemma fix_noop (D : Dicom)
    (h1 : ∃ w, getAttr? D nIOP = some w ∧ dvFalsy w = false)
    (h2 : ∃ w, getAttr? D nPS = some w ∧ w ≠ DVal.numList [0, 0])
    (h3 : ∃ w, getAttr? D nSBS = some w) :
    fix_dicom_geometry D = (D, false) := by
  obtain ⟨w1, hw1, hf1⟩ := h1
  obtain ⟨w2, hw2, hz2⟩ := h2
  obtain ⟨w3, hw3⟩ := h3
  simp only [fix_dicom_geometry, hasAttr_eq, getAttrD, hw1, hw2, hw3]
  simp [hw1, hw2, hw3, hf1, hz2]

/-- The same, for `Anonymizer.repair_dicom` and its three patch flags. -/
lemma repair_noop (D : Dicom)
    (h1 : ∃ w, getAttr? D nIOP = some w ∧ dvFalsy w = false)
    (h2 : ∃ w, getAttr? D nPS = some w ∧ w ≠ DVal.numList [0, 0])
    (h3 : ∃ w, getAttr? D nSBS = some w) :
    repair_dicom D = (D, false, false, false) := by
  obtain ⟨w1, hw1, hf1⟩ := h1
  obtain ⟨w2, hw2, hz2⟩ := h2
  obtain ⟨w3, hw3⟩ := h3
  simp only [repair_dicom, hasAttr_eq, getAttrD, hw1, hw2, hw3]
  simp [hw1, hw2, hw3, hf1, hz2]

/-- C5: geometry repair applies each of its three rules only as a fallback
and never overwrites a present, non-degenerate value — in both the
standalone repair processor and the anonymizer's repair step. -/
theorem claim_C5_geometry_fallback_rules (d : Dicom) :
    ((getAttr? d nIOP = none ∨ ∃ v, getAttr? d nIOP = some v ∧ dvFalsy v = true) →
      getAttr? (fix_dicom_geometry d).1 nIOP = some defaultIOP
      ∧ getAttr? (repair_dicom d).1 nIOP = some defaultIOP)
    ∧ (∀ v, getAttr? d nIOP = some v → dvFalsy v = false →
      getAttr? (fix_dicom_geometry d).1 nIOP = some v
      ∧ getAttr? (repair_dicom d).1 nIOP = some v)
    ∧ ((getAttr? d nPS = none ∨ getAttr? d nPS = some (DVal.numList [0, 0])) →
      getAttr? (fix_dicom_geometry d).1 nPS = some defaultPS
      ∧ getAttr? (repair_dicom d).1 nPS = some defaultPS)
    ∧ (∀ v, getAttr? d nPS = some v → v ≠ DVal.numList [0, 0] →
      getAttr? (fix_dicom_geometry d).1 nPS = some v
      ∧ getAttr? (repair_dicom d).1 nPS = some v)
    ∧ (getAttr? d nSBS = none →
      getAttr? (fix_dicom_geometry d).1 nSBS = some (getAttrD d nST defaultSBS)
      ∧ getAttr? (repair_dicom d).1 nSBS = some (getAttrD d nST defaultSBS))
    ∧ (∀ v, getAttr? d nSBS = some v →
      getAttr? (fix_dicom_geometry d).1 nSBS = some v
      ∧ getAttr? (repair_dicom d).1 nSBS = some v) := by
  have hrp : (repair_dicom d).1 = (fix_dicom_geometry d).1 := rfl
  refine ⟨fun h => ?_, fun v hv hf => ?_, fun h => ?_, fun v hv hz => ?_,
    fun h => ?_, fun v hv => ?_⟩
  · exact ⟨fix_iop_of_bad d h, by rw [hrp]; exact fix_iop_of_bad d h⟩
  · exact ⟨fix_iop_of_good d v hv hf, by rw [hrp]; exact fix_iop_of_good d v hv hf⟩
  · exact ⟨fix_ps_of_bad d h, by rw [hrp]; exact fix_ps_of_bad d h⟩
  · exact ⟨fix_ps_of_good d v hv hz, by rw [hrp]; exact fix_ps_of_good d v hv hz⟩
  · exact ⟨fix_sbs_of_missing d h, by rw [hrp]; exact fix_sbs_of_missing d h⟩
  · exact ⟨fix_sbs_of_present d v hv, by rw [hrp]; exact fix_sbs_of_present d v hv⟩

/-- Witness for C5: the spec's pixel-spacing scenarios — `[0,0]` is repaired
to `[0.4, 0.4]` while `[0.3, 0.3]` is left unchanged. -/
theorem claim_C5_witness :
    getAttr? (fix_dicom_geometry [(nPS, DVal.numList [0, 0])]).1 nPS = some defaultPS
    ∧ getAttr? (fix_dicom_geometry [(nPS, DVal.numList [q3am, q3am])]).1 nPS
        = some (DVal.numList [q3am, q3am]) :=
  ⟨((claim_C5_geometry_fallback_rules [(nPS, DVal.numList [0, 0])]).2.2.1
      (Or.inr (by decide))).1,
   ((claim_C5_geometry_fallback_rules [(nPS, DVal.numList [q3am, q3am])]).2.2.2.1
      (DVal.numList [q3am, q3am]) (by decide) (by decide)).1⟩

/-- C10: geometry repair is idempotent — a second application changes nothing
and reports no patch (single flag `False` for the repair processor, all three
flags `False` for the anonymizer's variant). -/
theorem claim_C10_repair_idempotent (d : Dicom) :
    fix_dicom_geometry (fix_dicom_geometry d).1 = ((fix_dicom_geometry d).1, false)
    ∧ repair_dicom (repair_dicom d).1 = ((repair_dicom d).1, false, false, false) := by
  have hrp : (repair_dicom d).1 = (fix_dicom_geometry d).1 := rfl
  refine ⟨fix_noop _ (fix_shape_iop d) (fix_shape_ps d) (fix_shape_sbs d), ?_⟩
  rw [hrp]
  exact repair_noop _ (fix_shape_iop d) (fix_shape_ps d) (fix_shape_sbs d)

/-- C1 (amended): an attribute whose lower-cased name matches a critical
pattern pair is preserved verbatim by anonymization provided the name does
not also contain both "study" and "uid" nor both "patient" and "id" — the
two replacement refinements are checked first and win when they match. -/
theorem claim_C1_critical_preserved (d : Dicom) (uid pid : Str)
    (nv : Str × DVal) (hmem : nv ∈ d)
    (hcrit : is_critical_patterns (pyLower nv.1) = true)
    (hsu : ¬(containsSub (str "study") (pyLower nv.1) = true
            ∧ containsSub (str "uid") (pyLower nv.1) = true))
    (hpid : ¬(containsSub (str "patient") (pyLower nv.1) = true
            ∧ containsSub (str "id") (pyLower nv.1) = true)) :
    anonStep uid pid nv = nv ∧ nv ∈ anonymize_dicom d uid pid := by
  have hstep := anonStep_preserved uid pid nv hcrit hsu hpid
  exact ⟨hstep, List.mem_map.mpr ⟨nv, hmem, hstep⟩⟩

/-- C1 counterexample: an attribute name matching both a critical pattern
pair ("pixel" + "spacing") and the study-UID refinement is rewritten to the
folder UID, not preserved — the refinement is checked before the critical
check, so Preserved does not win unconditionally. -/
theorem claim_C1_counterexample :
    is_critical_patterns (pyLower (str "StudyUIDPixelSpacing")) = true
    ∧ anonymize_dicom [(str "StudyUIDPixelSpacing", DVal.numList [q3am, q3am])]
        (str "1.2.3") (str "anon_1")
      = [(str "StudyUIDPixelSpacing", DVal.str (str "1.2.3"))]
    ∧ DVal.str (str "1.2.3") ≠ DVal.numList [q3am, q3am] := by decide

/-- Witness for C1 at the `BitsAllocated` attribute. -/
theorem claim_C1_witness :
    anonStep (str "1.2.3") (str "anon_1") (str "BitsAllocated", DVal.num 16)
      = (str "BitsAllocated", DVal.num 16)
    ∧ (str "BitsAllocated", DVal.num 16)
        ∈ anonymize_dicom [(str "BitsAllocated", DVal.num 16)] (str "1.2.3") (str "anon_1") :=
  claim_C1_critical_preserved [(str "BitsAllocated", DVal.num 16)]
    (str "1.2.3") (str "anon_1") (str "BitsAllocated", DVal.num 16)
    (by decide) (by decide) (by decide) (by decide)

/-! ### The resume slice of `anonimize_all_patients` (C2) -/

/-- Formalization of the claim's notion "canonical folder with index at least
`k`": the folder name's parsed canonical index exists and is ≥ `k`. -/
def idxGeB (s : Str) (k : Int) : Bool :=
  match parseIdx s with
  | some i => decide (k ≤ i)
  | none => false

lemma drop_eq_filter_of_dense (L : List Str) : ∀ (off k : Nat),
    (∀ j (hj : j < L.length), parseIdx (L.get ⟨j, hj⟩) = some ((off + j + 1 : Nat) : Int)) →
    L.drop k = L.filter (fun s => idxGeB s ((off + k + 1 : Nat) : Int)) := by
  induction L with
  | nil => intro off k _; simp
  | cons c L ih =>
    intro off k h
    have h0 : parseIdx c = some ((off + 1 : Nat) : Int) := by
      have := h 0 (by simp)
      simpa using this
    have hL : ∀ j (hj : j < L.length),
        parseIdx (L.get ⟨j, hj⟩) = some (((off + 1) + j + 1 : Nat) : Int) := by
      intro j hj
      have := h (j + 1) (by simpa using Nat.succ_lt_succ hj)
      simp only [List.get_cons_succ] at this
      rw [this]
      congr 2
      omega
    have hallL : ∀ t : Int, t ≤ ((off + 1 : Nat) : Int) + 1 →
        ∀ s ∈ L, idxGeB s t = true := by
      intro t ht s hs
      obtain ⟨⟨j, hj⟩, hget⟩ := List.mem_iff_get.mp hs
      have := hL j hj
      rw [hget] at this
      unfold idxGeB
      rw [this]
      simp only [decide_eq_true_eq]
      push_cast
      push_cast at ht
      omega
    cases k with
    | zero =>
      have hc : idxGeB c ((off + 0 + 1 : Nat) : Int) = true := by
        unfold idxGeB
        rw [h0]
        simp only [decide_eq_true_eq]
        push_cast
        omega
      rw [List.drop_zero]
      symm
      apply List.filter_eq_self.mpr
      intro s hs
      rcases List.mem_cons.mp hs with rfl | hs
      · exact hc
      · apply hallL _ _ s hs
        push_cast
        omega
    | succ k' =>
      have hc : ¬((fun s => idxGeB s ((off + (k' + 1) + 1 : Nat) : Int)) c = true) := by
        simp only []
        unfold idxGeB
        rw [h0]
        simp only [decide_eq_true_eq]
        push_cast
        omega
      have hskip : List.filter (fun s => idxGeB s ((off + (k' + 1) + 1 : Nat) : Int)) (c :: L)
          = List.filter (fun s => idxGeB s ((off + (k' + 1) + 1 : Nat) : Int)) L := by
        rw [List.filter_cons, if_neg hc]
      rw [List.drop_succ_cons, hskip]
      have hres := ih (off + 1) k' hL
      have hbe : (off + 1 + k' + 1 : Nat) = off + (k' + 1) + 1 := by omega
      rw [hbe] at hres
      exact hres

/-- C2 (amended): `anonimize_all_patients(start_index)` takes a positional
tail — it drops the first `startIndex − 1` entries of the lexicographically
sorted canonical folder list.  Exactly when the sorted canonical folders are
dense from 1 in sorted order (the `j`-th sorted folder parses to index
`j + 1`), this coincides with the claimed behaviour: precisely the canonical
folders with index ≥ startIndex are processed, and none with a smaller
index. -/
theorem claim_C2_resume_selection (names : List Str) (start : Nat) (h1 : 1 ≤ start)
    (hd : ∀ j (hj : j < (sortedCanon names).length),
      parseIdx ((sortedCanon names).get ⟨j, hj⟩) = some ((j + 1 : Nat) : Int)) :
    to_process names start
      = (sortedCanon names).filter (fun s => idxGeB s ((start : Nat) : Int))
    ∧ ∀ s ∈ to_process names start, idxGeB s ((start : Nat) : Int) = true := by
  have hd' : ∀ j (hj : j < (sortedCanon names).length),
      parseIdx ((sortedCanon names).get ⟨j, hj⟩) = some ((0 + j + 1 : Nat) : Int) := by
    intro j hj
    rw [hd j hj]
    congr 2
    omega
  have hmain := drop_eq_filter_of_dense (sortedCanon names) 0 (start - 1) hd'
  have hbound : (0 + (start - 1) + 1 : Nat) = start := by omega
  rw [hbound] at hmain
  refine ⟨hmain, ?_⟩
  intro s hs
  unfold to_process at hs
  rw [hmain] at hs
  exact (List.mem_filter.mp hs).2

/-- Witness for C2's amended statement on a dense two-folder listing. -/
theorem claim_C2_witness :
    to_process [str "patient__2_F_10", str "raw", str "patient__1_M_30"] 2
      = (sortedCanon [str "patient__2_F_10", str "raw", str "patient__1_M_30"]).filter
          (fun s => idxGeB s ((2 : Nat) : Int)) :=
  (claim_C2_resume_selection [str "patient__2_F_10", str "raw", str "patient__1_M_30"] 2
    (by decide) (by decide)).1

/-- C2 counterexample: pre-existing canonical indices {1, 3} (highest 3); the
raw folder is classified as index 4; running with startIndex = 3 + 1 = 4
processes nothing — the positional slice `patient_folders[3:]` drops the very
folder with index 4 that the claim requires to be processed. -/
theorem claim_C2_counterexample :
    anonimize_folders
      [⟨str "patient__1_M_30", none⟩, ⟨str "patient__3_F_40", none⟩,
       ⟨str "Ivanov", some (str "NO_SEX", str "NO_AGE")⟩]
      = some ([str "patient__1_M_30", str "patient__3_F_40", str "patient__4_NO_SEX_NO_AGE"],
              [(str "Ivanov", str "patient__4_NO_SEX_NO_AGE")])
    ∧ listMax (canonicalIndices [str "patient__1_M_30", str "patient__3_F_40", str "Ivanov"]) = 3
    ∧ to_process [str "patient__1_M_30", str "patient__3_F_40",
        str "patient__4_NO_SEX_NO_AGE"] 4 = []
    ∧ idxGeB (str "patient__4_NO_SEX_NO_AGE") 4 = true
    ∧ str "patient__4_NO_SEX_NO_AGE"
        ∈ [str "patient__1_M_30", str "patient__3_F_40", str "patient__4_NO_SEX_NO_AGE"] := by
  decide

/-! ### The sex/age heuristic (C8) and the no-archives guard (C9) -/

lemma firstTwoDigits_shape (s : Str) : ∀ t, firstTwoDigits s = some t → ∃ c1 c2, t = [c1, c2] := by
  induction s with
  | nil => intro t ht; simp [firstTwoDigits] at ht
  | cons c1 s' ih =>
    intro t ht
    cases s' with
    | nil => simp [firstTwoDigits] at ht
    | cons c2 rest =>
      unfold firstTwoDigits at ht
      split_ifs at ht with hd
      · exact ⟨c1, c2, (Option.some.inj ht).symm⟩
      · exact ih t ht

lemma guess_sex_ne_nil (nm : Str) : (guess_sex_and_age_from_name nm).1 ≠ [] := by
  unfold guess_sex_and_age_from_name
  dsimp only
  split_ifs <;> decide

lemma guess_age_ne_nil (nm : Str) : (guess_sex_and_age_from_name nm).2 ≠ [] := by
  unfold guess_sex_and_age_from_name
  dsimp only
  rcases hft : firstTwoDigits (pyLower nm) with _ | t
  · decide
  · obtain ⟨c1, c2, rfl⟩ := firstTwoDigits_shape _ t hft
    simp

/-- The classifier's fallback branch: when the records yielded the
`NO_SEX`/`NO_AGE` defaults, the final sex/age is exactly the name
heuristic's result. -/
lemma resolve_sex_age_fallback (nm : Str) :
    resolve_sex_age (str "NO_SEX", str "NO_AGE") nm = guess_sex_and_age_from_name nm := by
  have h1e : (guess_sex_and_age_from_name nm).1.isEmpty = false := by
    cases hh : (guess_sex_and_age_from_name nm).1 with
    | nil => exact absurd hh (guess_sex_ne_nil nm)
    | cons a l => rfl
  have h2e : (guess_sex_and_age_from_name nm).2.isEmpty = false := by
    cases hh : (guess_sex_and_age_from_name nm).2 with
    | nil => exact absurd hh (guess_age_ne_nil nm)
    | cons a l => rfl
  have hNO : (str "NO_SEX").isEmpty = false := by decide
  have hNOA : (str "NO_AGE").isEmpty = false := by decide
  unfold resolve_sex_age
  dsimp only
  simp only [decide_True, Bool.or_true, eq_self_iff_true, if_true, true_and]
  by_cases hg1 : (guess_sex_and_age_from_name nm).1 = str "NO_SEX" <;>
    by_cases hg2 : (guess_sex_and_age_from_name nm).2 = str "NO_AGE" <;>
    simp [hg1, hg2, h1e, h2e, hNO, hNOA] <;>
    (apply Prod.ext_iff.mpr; constructor <;> simp [hg1, hg2])

/-- C8: a raw folder whose records yield no sex and no age gets its tags from
the folder-name heuristic with `NO_SEX`/`NO_AGE` defaults; in particular a
folder `Ivanova_ж45` (records unreadable for sex/age) maps to heuristic tags
`F`/`45` and is renamed `patient__{N}_F_45` (here N = 8 after an existing
`patient__7` folder). -/
theorem claim_C8_sex_age_heuristic :
    (∀ nm : Str, resolve_sex_age (str "NO_SEX", str "NO_AGE") nm
        = guess_sex_and_age_from_name nm)
    ∧ guess_sex_and_age_from_name (str "Ivanova_ж45") = (str "F", str "45")
    ∧ anonimize_folders
        [⟨str "patient__7_M_30", none⟩,
         ⟨str "Ivanova_ж45", some (str "NO_SEX", str "NO_AGE")⟩]
      = some ([str "patient__7_M_30", str "patient__8_F_45"],
              [(str "Ivanova_ж45", str "patient__8_F_45")]) :=
  ⟨resolve_sex_age_fallback, by decide, by decide⟩

/-- C9: with no `.zip` file in the archive directory, the batch `run` prints
the termination report and stops: the folder listing is returned unchanged
and no folder is classified or anonymized. -/
theorem claim_C9_no_archives_noop (archiveFiles : List Str) (folders : List Folder)
    (extract : List Folder → List Folder) (recOf : Str → List RecFile)
    (uidOf pidOf : Str → Str)
    (h : ∀ f ∈ archiveFiles, endsWith (str ".zip") f = false) :
    run archiveFiles folders extract recOf uidOf pidOf
      = some (folders.map (·.name), [],
          [str "No archives found. Process terminated."]) := by
  have hb : has_archives archiveFiles = false := by
    unfold has_archives
    apply List.any_eq_false.mpr
    intro x hx
    simp [h x hx]
  unfold run
  rw [hb]
  rfl

/-- Witness for C9 on a directory holding a single non-archive file. -/
theorem claim_C9_witness :
    run [str "readme.txt"] [⟨str "A", none⟩] id (fun _ => []) (fun _ => []) (fun _ => [])
      = some ([str "A"], [], [str "No archives found. Process terminated."]) :=
  claim_C9_no_archives_noop [str "readme.txt"] [⟨str "A", none⟩] id (fun _ => [])
    (fun _ => []) (fun _ => []) (by decide)

/-- The resume index the batch driver computes is always 0: for canonical
`patient__N_…` names, `get_last_patient_index` splits on single underscores,
so `parts[1]` is the empty string between the two underscores and never
parses — every run therefore restarts the slice at `start_index = 1`. -/
lemma get_last_patient_index_always_zero (names : List Str) :
    get_last_patient_index names = 0 := by
  unfold get_last_patient_index
  have hnil : names.filterMap (fun f =>
      if startsWith (str "patient__") f then ((splitU f).get? 1).bind pyInt? else none) = [] := by
    rw [List.filterMap_eq_nil]
    intro f hf
    by_cases hp : startsWith (str "patient__") f = true
    · rw [if_pos hp]
      obtain ⟨rest, hrest⟩ := List.isPrefixOf_iff_prefix.mp hp
      subst hrest
      have hshape : str "patient__" ++ rest = str "patient" ++ '_' :: '_' :: rest := rfl
      rw [hshape, splitU_append (str "patient") _ (by decide)]
      have h2 : splitU ('_' :: rest) = [] :: splitU rest := by
        conv_lhs => rw [splitU]
        rw [if_pos rfl]
      rw [h2]
      rfl
    · rw [if_neg hp]
  rw [hnil]
  rfl
